import Mathlib

/-!
Shallow embedding of `src/packages/auto-start/base.ts` (interact.js
auto-start plugin core): action resolution (`getActionInfo`,
`validateMatches`, `validateAction`), admission control
(`withinInteractionLimit`, `maxInteractions`), lifecycle handlers
(`prepare`, `prepareOnDown`, `prepareOnMove`, `startOnMove`,
`clearCursorOnStop`) and cursor presentation (`setCursor`,
`setInteractionCursor`).

Modelling conventions:
- JavaScript numbers occurring here (option caps, the global cap) are
  integers or `Infinity`; they are modelled by `JNum`.  `NaN` never flows
  into these fields in the claims under study.
- DOM elements are modelled as values carrying an identity and the
  identity of their owning document (`Elem`).  The ancestor chain that the
  source walks via `utils.dom.parentNode` is passed explicitly as a
  `List Elem` (head = the event target, then its ancestors).
- Reference identity of interactables (`!==` in the source) is modelled by
  comparing the `id` field; concrete examples use distinct ids for
  distinct interactables.
- External collaborators (the target registry `forEachMatch`, the per
  interactable `getAction`, `testIgnoreAllow`, `getRect`, the action-kind
  cursor table) are fields of the corresponding structures.  The pointer,
  event and interaction arguments of `getAction` are fixed during one
  resolution pass, so the field depends only on the distinguishing
  argument, the match element.
- Mutable scope state (`scope.autoStart.maxInteractions`,
  `scope.autoStart.cursorElement`, `scope.interactions.list`, DOM cursor
  styles, fired signals) lives in the `Scope` structure; operations return
  the updated scope.
-/

namespace AutoStartBase

/-- A JavaScript number as used by the option caps in this file: a finite
integer or positive infinity (the default for `max` and the global cap). -/
inductive JNum where
  | fin (z : Int)
  | inf
deriving DecidableEq

/-- JavaScript truthiness of a `JNum` (`0` is falsy, everything else,
including negative numbers and `Infinity`, is truthy). -/
def JNum.truthy : JNum → Bool
  | .fin z => z != 0
  | .inf => true

/-- JavaScript comparison `n >= c` between a nonnegative integer counter
and a cap; every finite number is strictly below `Infinity`. -/
def JNum.natGe (n : Nat) : JNum → Bool
  | .fin z => decide ((n : Int) ≥ z)
  | .inf => false

/-- JavaScript comparison `c > 0`. -/
def JNum.pos : JNum → Bool
  | .fin z => decide (0 < z)
  | .inf => true

/-- A DOM element: its identity and the identity of its owning document. -/
structure Elem where
  id : Nat
  doc : Nat
deriving DecidableEq

/-- An action proposal (`{ name, ... }`); only the name is relevant to the
auto-start core.  `none` models a null / absent name. -/
structure ActionProps where
  name : Option String
deriving DecidableEq

/-- Geometry snapshot returned by `interactable.getRect`; its contents are
opaque to this core. -/
abbrev Rect : Type := Nat

/-- Per-action option bag (`interactable.options[action.name]`). -/
structure PerActionOptions where
  enabled : Bool
  manualStart : Bool
  max : JNum
  maxPerElement : JNum
  cursorChecker : Option (ActionProps → Elem → Bool → String)

/-- A registered interactable target.  `options` is indexed by the action
name (the source writes `options[action.name]`); `styleCursor` is the base
level option; `testIgnoreAllow`, `getAction` and `getRect` are the
externally supplied methods used by this core.  `id` models reference
identity. -/
structure Interactable where
  id : Nat
  options : Option String → PerActionOptions
  styleCursor : Bool
  testIgnoreAllow : PerActionOptions → Elem → Elem → Bool
  getAction : Elem → Option ActionProps
  getRect : Elem → Rect

/-- One interaction session (`Interact.Interaction`): the fields of the
session record read or written by the auto-start core.  `interacting` is
the value of the `interacting()` predicate / `_interacting`. -/
structure Interaction where
  pointerType : String
  pointerIsDown : Bool
  pointerWasMoved : Bool
  interacting : Bool
  prepared : ActionProps
  interactable : Option Interactable
  element : Option Elem
  rect : Option Rect

/-- The scope state visible to this plugin: the auto-start state
(`maxInteractions`, `cursorElement`), the live session list, the target
registry (`scope.interactables.forEachMatch` restricted to one element),
the default cursor table (`scope.actions[name].getCursor`), the DOM cursor
styles this core mutates, and the log of fired signals. -/
structure Scope where
  maxInteractions : JNum
  cursorElement : Option Elem
  interactionsList : List Interaction
  registry : Elem → List Interactable
  actionCursor : String → String
  elemCursor : Elem → String
  docCursor : Nat → String
  events : List String

/-- Pointwise update of a function, used to model a DOM style mutation. -/
def updFn {α β : Type} [DecidableEq α] (f : α → β) (a : α) (b : β) : α → β :=
  fun x => if x = a then b else f x

/-- `scope.signals.fire(name, ...)`: recorded in the event log. -/
def fireSignal (name : String) (scope : Scope) : Scope :=
  { scope with events := name :: scope.events }

/-- Reference comparison `interaction.interactable !== interactable`
(negated), modelled through the identity field. -/
def isSameInteractable : Option Interactable → Interactable → Bool
  | some other, interactable => other.id == interactable.id
  | none, _ => false

/-- The loop of `withinInteractionLimit` over `scope.interactions.list`,
with the three running counters as accumulators.  Each branch mirrors one
statement of the source loop body; the base case is the trailing
`return autoStartMax > 0`. -/
def limitScan (interactable : Interactable) (element : Option Elem)
    (actionName : Option String) (maxActions maxPerElement autoStartMax : JNum) :
    List Interaction → Nat → Nat → Nat → Bool
  | [], _, _, _ => autoStartMax.pos
  | interaction :: rest, activeInteractions, interactableCount, elementCount =>
    if !interaction.interacting then
      limitScan interactable element actionName maxActions maxPerElement autoStartMax
        rest activeInteractions interactableCount elementCount
    else
      let activeInteractions1 := activeInteractions + 1
      if JNum.natGe activeInteractions1 autoStartMax then false
      else if !isSameInteractable interaction.interactable interactable then
        limitScan interactable element actionName maxActions maxPerElement autoStartMax
          rest activeInteractions1 interactableCount elementCount
      else
        let interactableCount1 :=
          interactableCount + (if interaction.prepared.name == actionName then 1 else 0)
        if JNum.natGe interactableCount1 maxActions then false
        else if interaction.element == element then
          let elementCount1 := elementCount + 1
          if interaction.prepared.name == actionName
              && JNum.natGe elementCount1 maxPerElement then false
          else
            limitScan interactable element actionName maxActions maxPerElement autoStartMax
              rest activeInteractions1 interactableCount1 elementCount1
        else
          limitScan interactable element actionName maxActions maxPerElement autoStartMax
            rest activeInteractions1 interactableCount1 elementCount

/-- `withinInteractionLimit(interactable, element, action, scope)`. -/
def withinInteractionLimit (interactable : Interactable) (element : Option Elem)
    (action : ActionProps) (scope : Scope) : Bool :=
  let maxActions := (interactable.options action.name).max
  let maxPerElement := (interactable.options action.name).maxPerElement
  let autoStartMax := scope.maxInteractions
  -- source comment: no actions if any of these values == 0
  if !(maxActions.truthy && maxPerElement.truthy && autoStartMax.truthy) then false
  else
    limitScan interactable element action.name maxActions maxPerElement autoStartMax
      scope.interactionsList 0 0 0

/-- A JavaScript argument to `maxInteractions`: a number or anything else. -/
inductive JVal where
  | num (n : JNum)
  | other

/-- `maxInteractions(newValue, scope)`: setter when `newValue` is a
number (the source then returns `this`, modelled as `none`), otherwise a
pure getter returning the current cap. -/
def maxInteractionsFn (newValue : JVal) (scope : Scope) : Option JNum × Scope :=
  match newValue with
  | .num n => (none, { scope with maxInteractions := n })
  | .other => (some scope.maxInteractions, scope)

/-- `setCursor(element, cursor, scope)`: clear the style of the previously
recorded cursor element, style both the given element and the root of its
owning document, and record the element as `cursorElement` exactly when
the glyph is a non-empty string (JavaScript `cursor ? element : null`). -/
def setCursor (element : Elem) (cursor : String) (scope : Scope) : Scope :=
  let scope1 :=
    match scope.cursorElement with
    | some prev => { scope with elemCursor := updFn scope.elemCursor prev "" }
    | none => scope
  { scope1 with
    docCursor := updFn scope1.docCursor element.doc cursor
    elemCursor := updFn scope1.elemCursor element cursor
    cursorElement := if cursor == "" then none else some element }

/-- `setInteractionCursor(interaction, scope)`: derive a glyph from the
prepared action (custom `cursorChecker` if supplied, otherwise the action
kind default) and apply it, only for mouse pointers on targets with
`styleCursor` enabled.  The source dereferences `interaction.element`
unconditionally here; `element` is non-null whenever `interactable` is,
for every session produced by `prepare`. -/
def setInteractionCursor (interaction : Interaction) (scope : Scope) : Scope :=
  match interaction.interactable, interaction.element with
  | some interactable, some element =>
    if interaction.pointerType == "mouse" && interactable.styleCursor then
      let cursor :=
        match interaction.prepared.name with
        | some name =>
          match (interactable.options (some name)).cursorChecker with
          | some checker => checker interaction.prepared element interaction.interacting
          | none => scope.actionCursor name
        | none => ""
      setCursor element cursor scope
    else scope
  | _, _ => scope

/-- `clearCursorOnStop`: on the `interactions:stop` signal, clear the
cursor override when the target of the stopping session has `styleCursor`
enabled. -/
def clearCursorOnStop (interaction : Interaction) (scope : Scope) : Scope :=
  match interaction.interactable with
  | some interactable =>
    if interactable.styleCursor then
      match interaction.element with
      | some element => setCursor element "" scope
      | none => scope
    else scope
  | none => scope

/-- `validateAction`: the proposed action must pass the allow/ignore
filters, be enabled in its options, and be within the concurrency
limits; then it is returned, otherwise null. -/
def validateAction (action : ActionProps) (interactable : Interactable)
    (element : Elem) (eventTarget : Elem) (scope : Scope) : Option ActionProps :=
  if interactable.testIgnoreAllow (interactable.options action.name) element eventTarget
      && (interactable.options action.name).enabled
      && withinInteractionLimit interactable (some element) action scope then
    some action
  else
    none

/-- The result triple of a resolution attempt; the all-`none` value models
the source literal `{ action: null, interactable: null, element: null }`. -/
structure ActionInfo where
  action : Option ActionProps
  interactable : Option Interactable
  element : Option Elem

/-- The "none" resolution result. -/
def ActionInfo.noneInfo : ActionInfo :=
  { action := none, interactable := none, element := none }

/-- `validateMatches`: walk the candidate interactables (with their
parallel match elements) in registry order; skip candidates proposing no
action; the first candidate whose proposal passes `validateAction` wins. -/
def validateMatches (matchList : List Interactable) (matchElements : List Elem)
    (eventTarget : Elem) (scope : Scope) : ActionInfo :=
  match matchList, matchElements with
  | m :: restMatches, matchElement :: restElements =>
    (match m.getAction matchElement with
     | none => validateMatches restMatches restElements eventTarget scope
     | some matchAction =>
       match validateAction matchAction m matchElement eventTarget scope with
       | some action =>
         { action := some action, interactable := some m, element := some matchElement }
       | none => validateMatches restMatches restElements eventTarget scope)
  | _, _ => ActionInfo.noneInfo

/-- `getActionInfo`: ascend the ancestor chain; at each element collect
the registry matches (`forEachMatch` pushes the current element as the
match element for every match), validate them, and return the result as
soon as it has an action whose options do not require manual start;
otherwise continue with the parent.  Exhaustion yields the none triple. -/
def getActionInfo (chain : List Elem) (eventTarget : Elem) (scope : Scope) : ActionInfo :=
  match chain with
  | [] => ActionInfo.noneInfo
  | element :: rest =>
    let matchList := scope.registry element
    let matchElements := matchList.map (fun _ => element)
    let actionInfo := validateMatches matchList matchElements eventTarget scope
    (match actionInfo.action, actionInfo.interactable with
     | some a, some i =>
       if !(i.options a.name).manualStart then actionInfo
       else getActionInfo rest eventTarget scope
     | _, _ => getActionInfo rest eventTarget scope)

/-- The resolution outcome of a single level of the ancestor chain
(the body of one iteration of the `getActionInfo` loop). -/
def levelMatch (scope : Scope) (eventTarget element : Elem) : ActionInfo :=
  validateMatches (scope.registry element)
    ((scope.registry element).map (fun _ => element)) eventTarget scope

/-- Whether a resolution result is a match that does not require manual
start (the condition under which `getActionInfo` stops ascending). -/
def ActionInfo.isAuto (info : ActionInfo) : Bool :=
  match info.action, info.interactable with
  | some a, some i => !(i.options a.name).manualStart
  | _, _ => false

/-- `prepare(interaction, actionInfo, scope)`: replace a null action by
`{ name: null }`, clear the cursor styled for the previous target (when it
had `styleCursor` enabled), record the new target, element and action on
the session, snapshot the rect, refresh the cursor and fire the
`autoStart:prepared` signal. -/
def prepare (interaction : Interaction) (info : ActionInfo) (scope : Scope) :
    Interaction × Scope :=
  let action := info.action.getD { name := none }
  let scope1 :=
    match interaction.interactable, interaction.element with
    | some prevTarget, some prevElement =>
      if prevTarget.styleCursor then setCursor prevElement "" scope else scope
    | _, _ => scope
  let interaction1 : Interaction :=
    { interaction with
      interactable := info.interactable
      element := info.element
      prepared := action
      rect :=
        match info.interactable, action.name, info.element with
        | some it, some _, some el => some (it.getRect el)
        | _, _, _ => none }
  let scope2 := setInteractionCursor interaction1 scope1
  (interaction1, fireSignal "autoStart:prepared" scope2)

/-- Handler of `interactions:down`: unless the session is already active,
resolve and prepare. -/
def prepareOnDown (interaction : Interaction) (chain : List Elem)
    (eventTarget : Elem) (scope : Scope) : Interaction × Scope :=
  if interaction.interacting then (interaction, scope)
  else prepare interaction (getActionInfo chain eventTarget scope) scope

/-- Handler part of `interactions:move` that re-resolves on hover: only
for mouse pointers that are not down on sessions that are not active. -/
def prepareOnMove (interaction : Interaction) (chain : List Elem)
    (eventTarget : Elem) (scope : Scope) : Interaction × Scope :=
  if interaction.pointerType != "mouse"
      || interaction.pointerIsDown
      || interaction.interacting then (interaction, scope)
  else prepare interaction (getActionInfo chain eventTarget scope) scope

/-- Observable outcome of `startOnMove`: nothing (the guard returned
early), the `before-start` signal fired but there was no target to act on,
`interaction.stop()` invoked, or `interaction.start(...)` invoked with the
given arguments followed by a cursor refresh. -/
inductive StartEffect where
  | idle
  | noTarget
  | stopped
  | started (action : ActionProps) (target : Interactable) (element : Option Elem)

/-- Handler part of `interactions:move` that promotes a prepared session:
requires the pointer down, the session not yet active, movement past the
threshold recorded, and a prepared action name; fires
`autoStart:before-start`, then stops the session if the prepared option
requires manual start or the admission check now rejects, and otherwise
starts it and refreshes the cursor. -/
def startOnMove (interaction : Interaction) (scope : Scope) : StartEffect × Scope :=
  if !interaction.pointerIsDown
      || interaction.interacting
      || !interaction.pointerWasMoved
      || interaction.prepared.name == none then
    (.idle, scope)
  else
    let scope1 := fireSignal "autoStart:before-start" scope
    match interaction.prepared.name, interaction.interactable with
    | some _, some interactable =>
      if (interactable.options interaction.prepared.name).manualStart
          || !withinInteractionLimit interactable interaction.element
                interaction.prepared scope1 then
        (.stopped, scope1)
      else
        (.started interaction.prepared interactable interaction.element,
          setInteractionCursor interaction scope1)
    | _, _ => (.noTarget, scope1)

/-- Specification-side count: the number of currently active sessions in a
session list. -/
def countActive (l : List Interaction) : Nat :=
  (l.filter (fun i => i.interacting)).length

/-- Specification-side count: active sessions sharing the given element
and action name (the quantity claim C2 says the per-element counter
tracks). -/
def sameElementActionCount (l : List Interaction) (element : Option Elem)
    (name : Option String) : Nat :=
  (l.filter (fun i =>
    i.interacting && i.element == element && i.prepared.name == name)).length

/-- Cursor invariant: every element carrying a non-empty cursor style is
the recorded `cursorElement`; hence at most one element is styled. -/
def cursorInvariant (scope : Scope) : Prop :=
  ∀ e, scope.elemCursor e ≠ "" → scope.cursorElement = some e

/-! Concrete values used to evaluate the definitions on specific inputs. -/

/-- Example element. -/
def elA : Elem := { id := 1, doc := 0 }

/-- Second example element. -/
def elB : Elem := { id := 2, doc := 0 }

/-- Child element of the two-level resolution scenario. -/
def childEl : Elem := { id := 10, doc := 0 }

/-- Parent element of the two-level resolution scenario. -/
def parentEl : Elem := { id := 11, doc := 0 }

/-- Element matched by the hover-scenario registry. -/
def elHover : Elem := { id := 20, doc := 0 }

/-- Build a per-action option bag with no custom cursor function. -/
def mkOptions (enabled manualStart : Bool) (max maxPerElement : JNum) :
    PerActionOptions :=
  { enabled := enabled, manualStart := manualStart, max := max,
    maxPerElement := maxPerElement, cursorChecker := none }

/-- Build an interactable whose every action uses the given options, with
permissive filters, a fixed proposed action and `styleCursor` enabled. -/
def mkInteractable (id : Nat) (opts : PerActionOptions) (actionName : String) :
    Interactable :=
  { id := id, options := fun _ => opts, styleCursor := true,
    testIgnoreAllow := fun _ _ _ => true,
    getAction := fun _ => some { name := some actionName },
    getRect := fun _ => 0 }

/-- A scope with no registered targets, no sessions, unbounded global cap
and a clean cursor state. -/
def baseScope : Scope :=
  { maxInteractions := .inf, cursorElement := none, interactionsList := [],
    registry := fun _ => [], actionCursor := fun _ => "default",
    elemCursor := fun _ => "", docCursor := fun _ => "", events := [] }

/-- Target whose drag cap is negative (used against claim C1). -/
def negMaxIt : Interactable :=
  mkInteractable 1 (mkOptions true false (.fin (-1)) (.fin 1)) "drag"

/-- Target whose drag cap is zero. -/
def zeroMaxIt : Interactable :=
  mkInteractable 3 (mkOptions true false (.fin 0) (.fin 1)) "drag"

/-- Target with per-element cap 2 and no other limits (used against
claim C2). -/
def crossIt : Interactable :=
  mkInteractable 5 (mkOptions true false .inf (.fin 2)) "drag"

/-- An active resize session on `crossIt` at `elA`. -/
def sessionResize : Interaction :=
  { pointerType := "touch", pointerIsDown := true, pointerWasMoved := true,
    interacting := true, prepared := { name := some "resize" },
    interactable := some crossIt, element := some elA, rect := none }

/-- An active drag session on `crossIt` at `elA`. -/
def sessionDrag : Interaction :=
  { pointerType := "touch", pointerIsDown := true, pointerWasMoved := true,
    interacting := true, prepared := { name := some "drag" },
    interactable := some crossIt, element := some elA, rect := none }

/-- Scope whose live list holds the resize and the drag session. -/
def crossScope : Scope :=
  { baseScope with interactionsList := [sessionResize, sessionDrag] }

/-- Unconstrained target used for the global-cap boundary scenario. -/
def freeIt : Interactable :=
  mkInteractable 6 (mkOptions true false .inf .inf) "drag"

/-- Scope with global cap 2 and one active session (on `freeIt`). -/
def cap2Scope : Scope :=
  { baseScope with
    maxInteractions := .fin 2
    interactionsList :=
      [{ pointerType := "touch", pointerIsDown := true, pointerWasMoved := true,
         interacting := true, prepared := { name := some "drag" },
         interactable := some freeIt, element := some elB, rect := none }] }

/-- Manual-start target matched at the child element. -/
def manualIt : Interactable :=
  mkInteractable 21 (mkOptions true true .inf (.fin 1)) "drag"

/-- Auto-start target matched at the parent element. -/
def autoIt : Interactable :=
  mkInteractable 22 (mkOptions true false .inf (.fin 1)) "drag"

/-- Registry of the two-level scenario: a manual-start match on the child,
an auto-start match on the parent. -/
def chainScope : Scope :=
  { baseScope with
    registry := fun e =>
      if e.id = 10 then [manualIt] else if e.id = 11 then [autoIt] else [] }

/-- Auto-start target matched at `elHover`. -/
def hoverIt : Interactable :=
  mkInteractable 7 (mkOptions true false .inf (.fin 1)) "drag"

/-- Registry with `hoverIt` registered at `elHover`. -/
def hoverScope : Scope :=
  { baseScope with registry := fun e => if e.id = 20 then [hoverIt] else [] }

/-- A touch session that is neither down nor active. -/
def touchSession : Interaction :=
  { pointerType := "touch", pointerIsDown := false, pointerWasMoved := false,
    interacting := false, prepared := { name := none },
    interactable := none, element := none, rect := none }

/-- A mouse session that is neither down nor active. -/
def mouseSession : Interaction :=
  { touchSession with pointerType := "mouse" }

/-- A session meeting every precondition of `startOnMove`. -/
def goSession : Interaction :=
  { pointerType := "mouse", pointerIsDown := true, pointerWasMoved := true,
    interacting := false, prepared := { name := some "drag" },
    interactable := some hoverIt, element := some elA, rect := none }

/-- A session that was prepared on `hoverIt` at `elA` (previous target for
the wipe scenario of claim C10). -/
def prevSession : Interaction :=
  { pointerType := "mouse", pointerIsDown := false, pointerWasMoved := false,
    interacting := false, prepared := { name := some "drag" },
    interactable := some hoverIt, element := some elA, rect := none }

/-- An idle blank session about to be prepared. -/
def idleSession : Interaction :=
  { pointerType := "mouse", pointerIsDown := true, pointerWasMoved := false,
    interacting := false, prepared := { name := none },
    interactable := none, element := none, rect := none }

/-- A scope in which `elA` currently bears the cursor override. -/
def styledScope : Scope :=
  { baseScope with
    cursorElement := some elA
    elemCursor := updFn (fun _ => "") elA "move" }

/-- An active drag session on `hoverIt` at `elA`. -/
def dupSession : Interaction :=
  { pointerType := "touch", pointerIsDown := true, pointerWasMoved := true,
    interacting := true, prepared := { name := some "drag" },
    interactable := some hoverIt, element := some elA, rect := none }

/-- Scope whose live list holds exactly `dupSession`. -/
def dupScope : Scope :=
  { baseScope with interactionsList := [dupSession] }

/-! Helper lemmas. -/

/-- Unfolding of one level of the ascent, phrased through `levelMatch`. -/
theorem getActionInfo_cons (scope : Scope) (et el : Elem) (rest : List Elem) :
    getActionInfo (el :: rest) et scope =
      (match (levelMatch scope et el).action, (levelMatch scope et el).interactable with
       | some a, some i =>
         if !(i.options a.name).manualStart then levelMatch scope et el
         else getActionInfo rest et scope
       | _, _ => getActionInfo rest et scope) := rfl

/-- Firing a signal does not change the data the admission check reads. -/
theorem withinInteractionLimit_fireSignal (interactable : Interactable)
    (element : Option Elem) (action : ActionProps) (name : String) (scope : Scope) :
    withinInteractionLimit interactable element action (fireSignal name scope)
      = withinInteractionLimit interactable element action scope := rfl

/-- The session returned by `prepare` carries the resolved interactable. -/
theorem prepare_fst_interactable (i : Interaction) (info : ActionInfo) (scope : Scope) :
    ((prepare i info scope).1).interactable = info.interactable := rfl

/-- The session returned by `prepare` carries the resolved element. -/
theorem prepare_fst_element (i : Interaction) (info : ActionInfo) (scope : Scope) :
    ((prepare i info scope).1).element = info.element := rfl

/-- The session returned by `prepare` carries the resolved action, with a
null action replaced by `{ name: null }`. -/
theorem prepare_fst_prepared (i : Interaction) (info : ActionInfo) (scope : Scope) :
    ((prepare i info scope).1).prepared = info.action.getD { name := none } := rfl

/-- With a nonpositive finite global cap the scan loop always rejects. -/
theorem limitScan_nonposGlobal (it : Interactable) (el : Option Elem)
    (nm : Option String) (ma mpe : JNum) (g : Int) (hg : g ≤ 0) :
    ∀ (l : List Interaction) (a ic ec : Nat),
      limitScan it el nm ma mpe (.fin g) l a ic ec = false := by
  intro l
  induction l with
  | nil =>
    intro a ic ec
    simp only [limitScan, JNum.pos, decide_eq_false_iff_not, not_lt]
    exact hg
  | cons x rest ih =>
    intro a ic ec
    cases hx : x.interacting with
    | false => simpa [limitScan, hx] using ih a ic ec
    | true =>
      have h1 : JNum.natGe (a + 1) (JNum.fin g) = true := by
        simp only [JNum.natGe, decide_eq_true_eq]
        omega
      simp [limitScan, hx, h1]

/-- Every finite counter is below the infinite cap. -/
theorem natGe_inf (n : Nat) : JNum.natGe n .inf = false := rfl

/-- If the list holds an active session on the same interactable, the same
element and the same action name, and the per-element cap is 1, the scan
loop rejects from any accumulator state. -/
theorem limitScan_hit_perElement (it : Interactable) (el : Option Elem)
    (nm : Option String) (ma auto : JNum) (s : Interaction)
    (hact : s.interacting = true)
    (hsame : isSameInteractable s.interactable it = true)
    (hel : s.element = el) (hname : s.prepared.name = nm) :
    ∀ (l : List Interaction) (a ic ec : Nat),
      s ∈ l → limitScan it el nm ma (.fin 1) auto l a ic ec = false := by
  intro l
  induction l with
  | nil => intro a ic ec hmem; exact absurd hmem (List.not_mem_nil s)
  | cons x rest ih =>
    intro a ic ec hmem
    rcases List.mem_cons.mp hmem with hx | hx
    · subst hx
      have hge : JNum.natGe (ec + 1) (JNum.fin 1) = true := by
        simp only [JNum.natGe, decide_eq_true_eq]
        omega
      simp only [limitScan, hact, hsame, hel, hname, hge, beq_self_eq_true,
        Bool.not_true, Bool.and_true, Bool.false_eq_true, if_false, if_true]
      split_ifs <;> rfl
    · cases hxi : x.interacting with
      | false => simpa [limitScan, hxi] using ih a ic ec hx
      | true =>
        simp only [limitScan, hxi, Bool.not_true, Bool.false_eq_true, if_false]
        split_ifs <;> first | rfl | exact ih _ _ _ hx

/-- With both per-action caps unbounded and a finite global cap `N`, the
scan loop admits exactly when the previously counted plus the remaining
active sessions stay strictly below `N`. -/
theorem limitScan_infCaps (it : Interactable) (el : Option Elem)
    (nm : Option String) (N : Int) :
    ∀ (l : List Interaction) (a ic ec : Nat), (a : Int) < N →
      limitScan it el nm .inf .inf (.fin N) l a ic ec
        = decide (((a + countActive l : Nat) : Int) < N) := by
  intro l
  induction l with
  | nil =>
    intro a ic ec ha
    simp only [limitScan, JNum.pos, countActive, List.filter_nil, List.length_nil,
      Nat.add_zero]
    rw [decide_eq_decide]
    omega
  | cons x rest ih =>
    intro a ic ec ha
    cases hx : x.interacting with
    | false =>
      have hcount : countActive (x :: rest) = countActive rest := by
        simp [countActive, hx]
      rw [hcount]
      simpa [limitScan, hx] using ih a ic ec ha
    | true =>
      have hcount : countActive (x :: rest) = countActive rest + 1 := by
        simp [countActive, hx, List.filter_cons]
      rw [hcount]
      cases hge : JNum.natGe (a + 1) (JNum.fin N) with
      | true =>
        have hge2 : ¬ (((a + 1 : Nat) : Int) < N) := by
          simp only [JNum.natGe] at hge
          have := of_decide_eq_true hge
          omega
        simp only [limitScan, hx, hge, Bool.not_true, Bool.false_eq_true,
          if_false, if_true]
        rw [eq_comm, decide_eq_false_iff_not]
        push_cast at hge2 ⊢
        omega
      | false =>
        have ha1 : (((a + 1 : Nat)) : Int) < N := by
          simp only [JNum.natGe] at hge
          have := of_decide_eq_false hge
          omega
        simp only [limitScan, hx, hge, natGe_inf, Bool.and_false, Bool.not_true,
          Bool.false_eq_true, if_false]
        split
        · rw [ih (a + 1) ic ec ha1, decide_eq_decide]
          push_cast
          omega
        · split
          · rw [ih (a + 1) _ _ ha1, decide_eq_decide]
            push_cast
            omega
          · rw [ih (a + 1) _ _ ha1, decide_eq_decide]
            push_cast
            omega

/-- When the current level has a validated match that does not require
manual start, the ascent stops and returns it. -/
theorem getActionInfo_stop (scope : Scope) (et el : Elem) (rest : List Elem)
    (h : (levelMatch scope et el).isAuto = true) :
    getActionInfo (el :: rest) et scope = levelMatch scope et el := by
  rw [getActionInfo_cons]
  cases hA : (levelMatch scope et el).action with
  | none =>
    cases hI : (levelMatch scope et el).interactable with
    | none => simp [ActionInfo.isAuto, hA, hI] at h
    | some i => simp [ActionInfo.isAuto, hA, hI] at h
  | some a =>
    cases hI : (levelMatch scope et el).interactable with
    | none => simp [ActionInfo.isAuto, hA, hI] at h
    | some i =>
      simp only [ActionInfo.isAuto, hA, hI] at h
      simp only [hA, hI, h, if_true]

/-- When the current level has no validated match free of manual start,
the ascent continues with the parent chain. -/
theorem getActionInfo_skip (scope : Scope) (et el : Elem) (rest : List Elem)
    (h : (levelMatch scope et el).isAuto = false) :
    getActionInfo (el :: rest) et scope = getActionInfo rest et scope := by
  rw [getActionInfo_cons]
  cases hA : (levelMatch scope et el).action with
  | none =>
    cases hI : (levelMatch scope et el).interactable with
    | none => simp [hA, hI]
    | some i => simp [hA, hI]
  | some a =>
    cases hI : (levelMatch scope et el).interactable with
    | none => simp [hA, hI]
    | some i =>
      simp only [ActionInfo.isAuto, hA, hI] at h
      simp only [hA, hI, h, Bool.false_eq_true, if_false]

/-- If no level of the chain has a validated match free of manual start,
the ascent exhausts and returns the none triple. -/
theorem getActionInfo_exhaust (scope : Scope) (et : Elem) :
    ∀ chain : List Elem,
      (∀ el ∈ chain, (levelMatch scope et el).isAuto = false) →
      getActionInfo chain et scope = ActionInfo.noneInfo := by
  intro chain
  induction chain with
  | nil => intro _; rfl
  | cons el rest ih =>
    intro h
    rw [getActionInfo_skip scope et el rest (h el (List.mem_cons_self el rest))]
    exact ih fun x hx => h x (List.mem_cons_of_mem el hx)

/-- `setCursor` records the element iff the glyph is non-empty. -/
theorem setCursor_cursorElement (e : Elem) (g : String) (scope : Scope) :
    (setCursor e g scope).cursorElement = if g == "" then none else some e := rfl

/-- `setCursor` styles the given element with the glyph. -/
theorem setCursor_elemCursor_self (e : Elem) (g : String) (scope : Scope) :
    (setCursor e g scope).elemCursor e = g := by
  simp [setCursor, updFn]

/-- `setCursor` styles the owning document root with the glyph. -/
theorem setCursor_docCursor_self (e : Elem) (g : String) (scope : Scope) :
    (setCursor e g scope).docCursor e.doc = g := by
  simp [setCursor, updFn]

/-- `setCursor` first clears the previously recorded cursor element. -/
theorem setCursor_clears_prev (e : Elem) (g : String) (scope : Scope) (prev : Elem)
    (hprev : scope.cursorElement = some prev) (hne : prev ≠ e) :
    (setCursor e g scope).elemCursor prev = "" := by
  simp [setCursor, hprev, updFn, hne]

/-- `setCursor` preserves the single-styled-element invariant. -/
theorem setCursor_invariant (e : Elem) (g : String) (scope : Scope)
    (h : cursorInvariant scope) : cursorInvariant (setCursor e g scope) := by
  intro x hx
  by_cases hxe : x = e
  · subst hxe
    rw [setCursor_elemCursor_self] at hx
    rw [setCursor_cursorElement]
    have hg : (g == "") = false := by simpa using hx
    simp [hg]
  · exfalso
    cases hprev : scope.cursorElement with
    | none =>
      have hunch : (setCursor e g scope).elemCursor x = scope.elemCursor x := by
        simp [setCursor, hprev, updFn, hxe]
      rw [hunch] at hx
      have hsx := h x hx
      rw [hprev] at hsx
      exact Option.noConfusion hsx
    | some prev =>
      by_cases hxp : x = prev
      · subst hxp
        have hz : (setCursor e g scope).elemCursor x = "" := by
          simp [setCursor, hprev, updFn, hxe]
        exact hx hz
      · have hunch : (setCursor e g scope).elemCursor x = scope.elemCursor x := by
          simp [setCursor, hprev, updFn, hxe, hxp]
        rw [hunch] at hx
        have hsx := h x hx
        rw [hprev] at hsx
        exact hxp (Option.some.inj hsx).symm

/-- Stopping a session whose target styles the cursor removes the
override entirely: no recorded element and (given the invariant) no
residual styled element. -/
theorem clearCursorOnStop_clears (i : Interaction) (scope : Scope)
    (it : Interactable) (el : Elem)
    (hinv : cursorInvariant scope)
    (hit : i.interactable = some it) (hsc : it.styleCursor = true)
    (hel : i.element = some el) :
    (clearCursorOnStop i scope).cursorElement = none
    ∧ ∀ x, (clearCursorOnStop i scope).elemCursor x = "" := by
  have hred : clearCursorOnStop i scope = setCursor el "" scope := by
    simp [clearCursorOnStop, hit, hsc, hel]
  rw [hred]
  constructor
  · rw [setCursor_cursorElement]
    simp
  · intro x
    by_cases hxe : x = el
    · subst hxe
      exact setCursor_elemCursor_self x "" scope
    · cases hprev : scope.cursorElement with
      | none =>
        have hunch : (setCursor el "" scope).elemCursor x = scope.elemCursor x := by
          simp [setCursor, hprev, updFn, hxe]
        rw [hunch]
        by_contra hne
        have hsx := hinv x hne
        rw [hprev] at hsx
        exact Option.noConfusion hsx
      | some prev =>
        by_cases hxp : x = prev
        · subst hxp
          simp [setCursor, hprev, updFn, hxe]
        · have hunch : (setCursor el "" scope).elemCursor x = scope.elemCursor x := by
            simp [setCursor, hprev, updFn, hxe, hxp]
          rw [hunch]
          by_contra hne
          have hsx := hinv x hne
          rw [hprev] at hsx
          exact hxp (Option.some.inj hsx).symm

/-- A non-null action can only leave `validateMatches` together with its
matching interactable and element, and only having passed
`validateAction`. -/
theorem validateMatches_sound :
    ∀ (ml : List Interactable) (mel : List Elem) (et : Elem) (scope : Scope)
      (a : ActionProps),
      (validateMatches ml mel et scope).action = some a →
      ∃ m e, (validateMatches ml mel et scope).interactable = some m
        ∧ (validateMatches ml mel et scope).element = some e
        ∧ validateAction a m e et scope = some a := by
  intro ml
  induction ml with
  | nil =>
    intro mel et scope a h
    simp [validateMatches, ActionInfo.noneInfo] at h
  | cons m rest ih =>
    intro mel et scope a h
    cases mel with
    | nil => simp [validateMatches, ActionInfo.noneInfo] at h
    | cons me rmel =>
      cases hga : m.getAction me with
      | none =>
        simp only [validateMatches, hga] at h ⊢
        exact ih rmel et scope a h
      | some ma =>
        cases hva : validateAction ma m me et scope with
        | none =>
          simp only [validateMatches, hga, hva] at h ⊢
          exact ih rmel et scope a h
        | some act =>
          simp only [validateMatches, hga, hva] at h ⊢
          have hact2 : act = a := by simpa using h
          subst hact2
          have hma : act = ma := by
            unfold validateAction at hva
            split at hva
            · exact (Option.some.inj hva).symm
            · exact Option.noConfusion hva
          refine ⟨m, me, rfl, rfl, ?_⟩
          subst hma
          exact hva

/-- A non-null action can only leave `getActionInfo` together with its
matching interactable and element, and only having passed
`validateAction`. -/
theorem getActionInfo_sound :
    ∀ (chain : List Elem) (et : Elem) (scope : Scope) (a : ActionProps),
      (getActionInfo chain et scope).action = some a →
      ∃ m e, (getActionInfo chain et scope).interactable = some m
        ∧ (getActionInfo chain et scope).element = some e
        ∧ validateAction a m e et scope = some a := by
  intro chain
  induction chain with
  | nil =>
    intro et scope a h
    simp [getActionInfo, ActionInfo.noneInfo] at h
  | cons el rest ih =>
    intro et scope a h
    rw [getActionInfo_cons] at h ⊢
    cases hA : (levelMatch scope et el).action with
    | none =>
      cases hI : (levelMatch scope et el).interactable with
      | none => simp only [hA, hI] at h ⊢; exact ih et scope a h
      | some i => simp only [hA, hI] at h ⊢; exact ih et scope a h
    | some a0 =>
      cases hI : (levelMatch scope et el).interactable with
      | none => simp only [hA, hI] at h ⊢; exact ih et scope a h
      | some i =>
        simp only [hA, hI] at h ⊢
        by_cases hm : (i.options a0.name).manualStart
        · simp only [hm, Bool.not_true, Bool.false_eq_true, if_false] at h ⊢
          exact ih et scope a h
        · rw [Bool.not_eq_true] at hm
          simp only [hm, Bool.not_false, if_true] at h ⊢
          exact validateMatches_sound _ _ et scope a h

/-! Claim theorems. -/

/-- Claim C1, counterexample: with a negative per-action cap
(`max = -1`), a per-element cap of 1, an unbounded global cap and an empty
live session list, `withinInteractionLimit` returns true, although the
claim demands false for every cap that is at most 0, in particular
negative ones, even with no active session. -/
theorem withinInteractionLimit_negativeMax_admits :
    withinInteractionLimit negMaxIt (some elA) { name := some "drag" } baseScope = true
    ∧ (negMaxIt.options (some "drag")).max = .fin (-1)
    ∧ countActive baseScope.interactionsList = 0 := by
  refine ⟨by decide, by decide, by decide⟩

/-- Claim C1, amended: `withinInteractionLimit` returns false, regardless
of the live session list, whenever the per-action cap `max` is exactly 0,
the per-element cap `maxPerElement` is exactly 0, or the global cap is at
most 0.  (A negative `max` or `maxPerElement` does not by itself force
rejection: the degenerate check uses truthiness, so only 0 trips it.) -/
theorem withinInteractionLimit_zeroCap_rejects (interactable : Interactable)
    (element : Option Elem) (action : ActionProps) (scope : Scope)
    (h : (interactable.options action.name).max = .fin 0
       ∨ (interactable.options action.name).maxPerElement = .fin 0
       ∨ ∃ g : Int, scope.maxInteractions = .fin g ∧ g ≤ 0) :
    withinInteractionLimit interactable element action scope = false := by
  rcases h with h | h | ⟨g, hg, hle⟩
  · simp [withinInteractionLimit, h, JNum.truthy]
  · simp [withinInteractionLimit, h, JNum.truthy]
  · rw [withinInteractionLimit]
    simp only [hg]
    split
    · rfl
    · exact limitScan_nonposGlobal _ _ _ _ _ g hle _ 0 0 0

/-- Witness for the amended claim C1, at a target whose drag cap is 0. -/
theorem withinInteractionLimit_zeroCap_rejects_witness :
    withinInteractionLimit zeroMaxIt (some elA) { name := some "drag" } baseScope
      = false :=
  withinInteractionLimit_zeroCap_rejects zeroMaxIt (some elA)
    { name := some "drag" } baseScope (Or.inl (by decide))

/-- Claim C2, counterexample: the counter compared against
`maxPerElement` does not count only same-element same-action sessions.
With `maxPerElement = 2`, an unbounded `max` and an unbounded global cap,
a candidate drag on `elA` is rejected although only one active session
shares both the element and the action name (the other active session on
the same element is a resize): the per-element counter also counted the
cross-action session. -/
theorem withinInteractionLimit_elementCount_crossAction :
    withinInteractionLimit crossIt (some elA) { name := some "drag" } crossScope = false
    ∧ sameElementActionCount crossScope.interactionsList (some elA) (some "drag") = 1
    ∧ (crossIt.options (some "drag")).maxPerElement = .fin 2
    ∧ (crossIt.options (some "drag")).max = .inf
    ∧ crossScope.maxInteractions = .inf
    ∧ countActive crossScope.interactionsList = 2 :=
  ⟨by decide, by decide, by decide, by decide, by decide, by decide⟩

/-- Claim C2, amended: the per-element counter counts active sessions
sharing the candidate interactable and element regardless of action name,
and rejection fires on scanning a same-action session once that counter
has reached `maxPerElement`; consequently, with the default
`maxPerElement = 1`, the presence of any active session on the same
interactable, the same element and the same action name forces rejection,
so two such sessions are never both active. -/
theorem withinInteractionLimit_perElement_reject (interactable : Interactable)
    (element : Option Elem) (action : ActionProps) (scope : Scope) (s : Interaction)
    (hmem : s ∈ scope.interactionsList)
    (hact : s.interacting = true)
    (hsame : isSameInteractable s.interactable interactable = true)
    (hel : s.element = element)
    (hname : s.prepared.name = action.name)
    (hmpe : (interactable.options action.name).maxPerElement = .fin 1) :
    withinInteractionLimit interactable element action scope = false := by
  rw [withinInteractionLimit]
  simp only [hmpe]
  split
  · rfl
  · exact limitScan_hit_perElement _ _ _ _ _ s hact hsame hel hname _ 0 0 0 hmem

/-- Witness for the amended claim C2: one active drag on `hoverIt` at
`elA` with the default per-element cap 1 blocks a second drag there. -/
theorem withinInteractionLimit_perElement_reject_witness :
    withinInteractionLimit hoverIt (some elA) { name := some "drag" } dupScope
      = false :=
  withinInteractionLimit_perElement_reject hoverIt (some elA)
    { name := some "drag" } dupScope dupSession
    (List.mem_cons_self dupSession []) rfl (by decide) rfl rfl (by decide)

/-- Claim C4: with unbounded per-action caps and a positive finite global
cap `N`, the admission check succeeds exactly when the number of active
sessions (the candidate, not yet active, is not among them) is strictly
below `N`: with `N - 1` active sessions the candidate is admitted, with
`N` it is rejected. -/
theorem withinInteractionLimit_globalCap (interactable : Interactable)
    (element : Option Elem) (action : ActionProps) (scope : Scope) (N : Int)
    (hmax : (interactable.options action.name).max = .inf)
    (hmpe : (interactable.options action.name).maxPerElement = .inf)
    (hglob : scope.maxInteractions = .fin N)
    (hN : 0 < N) :
    withinInteractionLimit interactable element action scope
      = decide (((countActive scope.interactionsList : Nat) : Int) < N) := by
  have hzero : (((0 : Nat)) : Int) < N := by omega
  have htr : (N != 0) = true := by
    simp only [bne_iff_ne, ne_eq, decide_eq_true_eq]
    omega
  rw [withinInteractionLimit]
  simp only [hmax, hmpe, hglob, JNum.truthy, htr, Bool.and_self, Bool.and_true,
    Bool.true_and, Bool.not_true, Bool.false_eq_true, if_false]
  rw [limitScan_infCaps interactable element action.name N
    scope.interactionsList 0 0 0 hzero]
  simp only [Nat.zero_add]

/-- Witness for claim C4: global cap 2 with one active session admits the
candidate (the decide on the right evaluates to true). -/
theorem withinInteractionLimit_globalCap_witness :
    withinInteractionLimit freeIt (some elA) { name := some "drag" } cap2Scope
      = decide (((countActive cap2Scope.interactionsList : Nat) : Int) < 2) :=
  withinInteractionLimit_globalCap freeIt (some elA)
    { name := some "drag" } cap2Scope 2 rfl rfl rfl (by decide)

/-- Claim C8: `maxInteractions` sets the global cap when called with a
number (and touches nothing else), and acts as a pure getter on any
non-numeric argument; in particular after setting the cap to 2 a
non-numeric call returns 2. -/
theorem maxInteractions_setter_getter :
    (∀ (n : JNum) (scope : Scope),
      maxInteractionsFn (.num n) scope = (none, { scope with maxInteractions := n }))
    ∧ (∀ scope : Scope,
      maxInteractionsFn .other scope = (some scope.maxInteractions, scope))
    ∧ (∀ scope : Scope,
      (maxInteractionsFn .other (maxInteractionsFn (.num (.fin 2)) scope).2).1
        = some (.fin 2)) :=
  ⟨fun _ _ => rfl, fun _ => rfl, fun _ => rfl⟩

/-- Claim C3: the resolver stops ascending and returns the level result
as soon as it holds a validated match whose action does not require
manual start; any other level outcome (no match, or only a manual-start
match) makes it climb to the parent; and a chain none of whose levels has
an auto-startable match resolves to the none triple
`{action: null, interactable: null, element: null}`. -/
theorem getActionInfo_ascending_spec :
    (∀ (scope : Scope) (et el : Elem) (rest : List Elem),
      (levelMatch scope et el).isAuto = true →
      getActionInfo (el :: rest) et scope = levelMatch scope et el)
    ∧ (∀ (scope : Scope) (et el : Elem) (rest : List Elem),
      (levelMatch scope et el).isAuto = false →
      getActionInfo (el :: rest) et scope = getActionInfo rest et scope)
    ∧ (∀ (scope : Scope) (et : Elem) (chain : List Elem),
      (∀ el ∈ chain, (levelMatch scope et el).isAuto = false) →
      getActionInfo chain et scope = ActionInfo.noneInfo) :=
  ⟨getActionInfo_stop, getActionInfo_skip, getActionInfo_exhaust⟩

/-- Witness for claim C3: with a manual-start match on the child and an
auto-start match on the parent, resolution returns the parent level
result; with only the manual-start child in the chain, it returns the
none triple. -/
theorem getActionInfo_ascending_spec_witness :
    getActionInfo [childEl, parentEl] childEl chainScope
      = levelMatch chainScope childEl parentEl
    ∧ getActionInfo [childEl] childEl chainScope = ActionInfo.noneInfo := by
  have h := getActionInfo_ascending_spec
  constructor
  · rw [h.2.1 chainScope childEl childEl [parentEl] rfl]
    exact h.1 chainScope childEl parentEl [] rfl
  · refine h.2.2 chainScope childEl [childEl] ?_
    intro x hx
    rw [List.mem_singleton] at hx
    subst hx
    rfl

/-- Claim C5: `setCursor` clears the previously recorded element first,
applies the glyph to the given element and to its owning document root,
and records the element exactly when the glyph is non-empty.  It keeps
the invariant that every styled element is the recorded `cursorElement`,
so at most one element bears the override; and an interaction-stop on a
session whose target has `styleCursor` enabled clears the override
completely. -/
theorem cursor_single_override :
    (∀ (scope : Scope) (e : Elem) (g : String),
      (setCursor e g scope).cursorElement = (if g == "" then none else some e)
      ∧ (setCursor e g scope).elemCursor e = g
      ∧ (setCursor e g scope).docCursor e.doc = g
      ∧ ∀ prev, scope.cursorElement = some prev → prev ≠ e →
          (setCursor e g scope).elemCursor prev = "")
    ∧ (∀ (scope : Scope) (e : Elem) (g : String),
      cursorInvariant scope → cursorInvariant (setCursor e g scope))
    ∧ (∀ scope : Scope, cursorInvariant scope →
      ∀ x y, scope.elemCursor x ≠ "" → scope.elemCursor y ≠ "" → x = y)
    ∧ (∀ (i : Interaction) (scope : Scope) (it : Interactable) (el : Elem),
      cursorInvariant scope → i.interactable = some it → it.styleCursor = true →
      i.element = some el →
      (clearCursorOnStop i scope).cursorElement = none
      ∧ ∀ x, (clearCursorOnStop i scope).elemCursor x = "") := by
  refine ⟨?_, ?_, ?_, ?_⟩
  · intro scope e g
    exact ⟨setCursor_cursorElement e g scope, setCursor_elemCursor_self e g scope,
      setCursor_docCursor_self e g scope,
      fun prev hp hne => setCursor_clears_prev e g scope prev hp hne⟩
  · intro scope e g h
    exact setCursor_invariant e g scope h
  · intro scope h x y hx hy
    have h1 := h x hx
    have h2 := h y hy
    rw [h1] at h2
    exact Option.some.inj h2
  · intro i scope it el hinv hit hsc hel
    exact clearCursorOnStop_clears i scope it el hinv hit hsc hel

/-- Witness for claim C5: stopping a session prepared on `hoverIt` at
`elA` in a scope where `elA` bears the override clears the recorded
element and the style of `elA`. -/
theorem cursor_single_override_witness :
    (clearCursorOnStop prevSession styledScope).cursorElement = none
    ∧ (clearCursorOnStop prevSession styledScope).elemCursor elA = "" := by
  have hinv : cursorInvariant styledScope := by
    intro e he
    by_cases h : e = elA
    · subst h; rfl
    · exfalso
      apply he
      simp [styledScope, baseScope, updFn, h]
  have h := cursor_single_override.2.2.2 prevSession styledScope hoverIt elA
    hinv rfl rfl rfl
  exact ⟨h.1, h.2 elA⟩

/-- Claim C6, counterexample: a touch-type session with the pointer up
and the session inactive is ignored by `prepareOnMove` (state returned
unchanged, nothing prepared), although running the same resolution as
`prepareOnDown` does would prepare the drag action; so the hover re-run
does not happen for every pointer type. -/
theorem prepareOnMove_touch_ignored :
    touchSession.pointerIsDown = false
    ∧ touchSession.interacting = false
    ∧ prepareOnMove touchSession [elHover] elHover hoverScope
        = (touchSession, hoverScope)
    ∧ ((prepareOnDown touchSession [elHover] elHover hoverScope).1).prepared.name
        = some "drag" :=
  ⟨rfl, rfl, rfl, rfl⟩

/-- Claim C6, amended: for a mouse-type pointer that is not down on a
session that is not active, `prepareOnMove` runs exactly the resolution
and prepare of `prepareOnDown`; other pointer types are ignored on hover
moves. -/
theorem prepareOnMove_mouse_matches_down (interaction : Interaction)
    (chain : List Elem) (eventTarget : Elem) (scope : Scope)
    (hType : interaction.pointerType = "mouse")
    (hDown : interaction.pointerIsDown = false)
    (hAct : interaction.interacting = false) :
    prepareOnMove interaction chain eventTarget scope
      = prepare interaction (getActionInfo chain eventTarget scope) scope
    ∧ prepareOnMove interaction chain eventTarget scope
      = prepareOnDown interaction chain eventTarget scope := by
  constructor
  · simp [prepareOnMove, hType, hDown, hAct]
  · simp [prepareOnMove, prepareOnDown, hType, hDown, hAct]

/-- Witness for the amended claim C6, on a hovering mouse session. -/
theorem prepareOnMove_mouse_matches_down_witness :
    prepareOnMove mouseSession [elHover] elHover hoverScope
      = prepareOnDown mouseSession [elHover] elHover hoverScope :=
  (prepareOnMove_mouse_matches_down mouseSession [elHover] elHover hoverScope
    rfl rfl rfl).2

/-- Claim C7: when the pointer is down, the session is not active,
movement was recorded and an action with a target is prepared,
`startOnMove` fires the before-start notification and then stops the
session if the prepared option requires manual start or the admission
check now rejects, and otherwise invokes start with the prepared action,
target and element and refreshes the cursor; when any precondition
fails, it does nothing. -/
theorem startOnMove_dispatch :
    (∀ (i : Interaction) (scope : Scope) (n : String) (it : Interactable),
      i.pointerIsDown = true → i.interacting = false → i.pointerWasMoved = true →
      i.prepared.name = some n → i.interactable = some it →
      startOnMove i scope =
        (if (it.options (some n)).manualStart
            || !withinInteractionLimit it i.element i.prepared scope then
          (StartEffect.stopped, fireSignal "autoStart:before-start" scope)
        else
          (StartEffect.started i.prepared it i.element,
            setInteractionCursor i (fireSignal "autoStart:before-start" scope))))
    ∧ (∀ (i : Interaction) (scope : Scope),
      (i.pointerIsDown = false ∨ i.interacting = true ∨ i.pointerWasMoved = false
        ∨ i.prepared.name = none) →
      startOnMove i scope = (StartEffect.idle, scope)) := by
  constructor
  · intro i scope n it hdown hact hmoved hname hit
    have hbeq : (i.prepared.name == (none : Option String)) = false := by
      simp [hname]
    rw [startOnMove]
    simp only [hdown, hact, hmoved, hname, hit, hbeq,
      withinInteractionLimit_fireSignal, Bool.not_true, Bool.or_false,
      Bool.false_or, Bool.or_self, Bool.false_eq_true, if_false]
    simp
  · intro i scope h
    rcases h with h | h | h | h <;> simp [startOnMove, h]

/-- Witness for claim C7, on a fully prepared mouse session. -/
theorem startOnMove_dispatch_witness :
    startOnMove goSession baseScope =
      (if (hoverIt.options (some "drag")).manualStart
          || !withinInteractionLimit hoverIt goSession.element goSession.prepared
                baseScope then
        (StartEffect.stopped, fireSignal "autoStart:before-start" baseScope)
      else
        (StartEffect.started goSession.prepared hoverIt goSession.element,
          setInteractionCursor goSession (fireSignal "autoStart:before-start" baseScope))) :=
  startOnMove_dispatch.1 goSession baseScope "drag" hoverIt rfl rfl rfl rfl rfl

/-- Claim C9: `validateMatches` returns a non-null action only together
with the matching non-null interactable and element; and a session coming
out of `prepare` fed by `getActionInfo` has a non-empty prepared name
only if it carries a non-null target and element whose action passed
`validateAction` against the same scope; a failed resolution records
`{name: null}` with a null target. -/
theorem prepare_validated_invariant :
    (∀ (ml : List Interactable) (mel : List Elem) (et : Elem) (scope : Scope)
      (a : ActionProps),
      (validateMatches ml mel et scope).action = some a →
      ∃ m e, (validateMatches ml mel et scope).interactable = some m
        ∧ (validateMatches ml mel et scope).element = some e
        ∧ validateAction a m e et scope = some a)
    ∧ (∀ (i : Interaction) (chain : List Elem) (et : Elem) (scope : Scope)
      (n : String),
      ((prepare i (getActionInfo chain et scope) scope).1).prepared.name = some n →
      ∃ m e,
        ((prepare i (getActionInfo chain et scope) scope).1).interactable = some m
        ∧ ((prepare i (getActionInfo chain et scope) scope).1).element = some e
        ∧ validateAction ((prepare i (getActionInfo chain et scope) scope).1).prepared
            m e et scope
          = some ((prepare i (getActionInfo chain et scope) scope).1).prepared)
    ∧ (∀ (i : Interaction) (scope : Scope),
      ((prepare i ActionInfo.noneInfo scope).1).prepared = { name := none }
      ∧ ((prepare i ActionInfo.noneInfo scope).1).interactable = none) := by
  refine ⟨validateMatches_sound, ?_, fun i scope => ⟨rfl, rfl⟩⟩
  intro i chain et scope n h
  rw [prepare_fst_prepared] at h
  cases hA : (getActionInfo chain et scope).action with
  | none => rw [hA] at h; simp at h
  | some a0 =>
    obtain ⟨m, e, hm, he, hv⟩ := getActionInfo_sound chain et scope a0 hA
    refine ⟨m, e, ?_, ?_, ?_⟩
    · rw [prepare_fst_interactable]; exact hm
    · rw [prepare_fst_element]; exact he
    · rw [prepare_fst_prepared, hA]
      simpa using hv

/-- Witness for claim C9: preparing an idle session against the hover
registry yields a drag prepared on `hoverIt`, with the invariant
instantiated. -/
theorem prepare_validated_invariant_witness :
    ∃ m e,
      ((prepare idleSession (getActionInfo [elHover] elHover hoverScope)
          hoverScope).1).interactable = some m
      ∧ ((prepare idleSession (getActionInfo [elHover] elHover hoverScope)
          hoverScope).1).element = some e
      ∧ validateAction
          ((prepare idleSession (getActionInfo [elHover] elHover hoverScope)
              hoverScope).1).prepared m e elHover hoverScope
        = some ((prepare idleSession (getActionInfo [elHover] elHover hoverScope)
              hoverScope).1).prepared :=
  prepare_validated_invariant.2.1 idleSession [elHover] elHover hoverScope "drag" rfl

/-- Claim C10: when resolution finds no candidate, `prepare` wipes the
session: target and element set to null, the prepared action replaced by
`{name: null}`, the rect cleared; and when the previous target had
`styleCursor` enabled, the cursor styling for the previous element (and
for whatever element was recorded) is cleared first, leaving no recorded
cursor element. -/
theorem prepare_none_wipes (i : Interaction) (scope : Scope)
    (chain : List Elem) (et : Elem)
    (h : getActionInfo chain et scope = ActionInfo.noneInfo) :
    ((prepare i (getActionInfo chain et scope) scope).1).interactable = none
    ∧ ((prepare i (getActionInfo chain et scope) scope).1).element = none
    ∧ ((prepare i (getActionInfo chain et scope) scope).1).prepared = { name := none }
    ∧ ((prepare i (getActionInfo chain et scope) scope).1).rect = none
    ∧ (∀ (prevIt : Interactable) (prevEl : Elem),
        i.interactable = some prevIt → i.element = some prevEl →
        prevIt.styleCursor = true →
        ((prepare i (getActionInfo chain et scope) scope).2).cursorElement = none
        ∧ ((prepare i (getActionInfo chain et scope) scope).2).elemCursor prevEl = ""
        ∧ ∀ ce, scope.cursorElement = some ce →
            ((prepare i (getActionInfo chain et scope) scope).2).elemCursor ce = "") := by
  rw [h]
  refine ⟨rfl, rfl, rfl, rfl, ?_⟩
  intro prevIt prevEl hit hel hsc
  have h2 : (prepare i ActionInfo.noneInfo scope).2
      = fireSignal "autoStart:prepared" (setCursor prevEl "" scope) := by
    simp [prepare, setInteractionCursor, ActionInfo.noneInfo, hit, hel, hsc]
  rw [h2]
  refine ⟨?_, ?_, ?_⟩
  · show (setCursor prevEl "" scope).cursorElement = none
    rw [setCursor_cursorElement]
    simp
  · show (setCursor prevEl "" scope).elemCursor prevEl = ""
    exact setCursor_elemCursor_self prevEl "" scope
  · intro ce hce
    show (setCursor prevEl "" scope).elemCursor ce = ""
    by_cases hne : ce = prevEl
    · subst hne
      exact setCursor_elemCursor_self ce "" scope
    · exact setCursor_clears_prev prevEl "" scope ce hce hne

/-- Witness for claim C10: preparing `prevSession` (previous target
`hoverIt` on `elA`, which bears the override) with an empty resolution
wipes the target and clears the styling of `elA`. -/
theorem prepare_none_wipes_witness :
    ((prepare prevSession (getActionInfo [elB] elB styledScope)
        styledScope).1).interactable = none
    ∧ ((prepare prevSession (getActionInfo [elB] elB styledScope)
        styledScope).2).elemCursor elA = "" := by
  have h := prepare_none_wipes prevSession styledScope [elB] elB rfl
  exact ⟨h.1, (h.2.2.2.2 hoverIt elA rfl rfl rfl).2.1⟩

end AutoStartBase
